import Mathlib

/-!
Verification of the mbed-test allocation orchestrator
(icetea_lib/ResourceProvider/ResourceProvider.py), the resilient line
transport (mbed_test/enhancedserial.py) and the relevant helpers of
icetea_lib/tools/tools.py, as a shallow embedding with theorems checking
the specification claims against the embedded code.
-/

/-- Command line arguments object as consumed by ResourceProvider.  The only
field the allocation path reads is args.allocator (the allocator name picked
in __get_allocator).  The fields args.list and args.listsuites only configure
logging in __init__ and args.my_duts is only used by get_my_duts, so they are
omitted here. -/
structure Args where
  allocator : String
deriving DecidableEq

/-- Modelled from the spec: AllocationError
(icetea_lib/ResourceProvider/Allocators/exceptions.py is not among the
sources).  The spec says it carries a human readable reason, and
ResourceProvider.allocate_duts reads it as error.message. -/
structure AllocationError where
  message : String

/-- Modelled from the spec: ResourceInitError
(icetea_lib/ResourceProvider/exceptions.py is not among the sources).  It is
raised with a single message argument in ResourceProvider. -/
inductive RPError where
  | resourceInitError (message : String)

/-- Modelled from the spec: the ResourceConfig object (not among the sources)
exposes count_hardware, count_duts and get_dut_configuration;
allocate_duts reads count_hardware into an unused local and passes the whole
object on to the allocator.  The requirement payload itself is opaque here,
only the counts are kept. -/
structure ResourceConfig where
  count_hardware : Nat
  count_duts : Nat

/-- An allocator instance as used by allocate_duts: its allocate method is
called as allocate(resource_configuration, args=self.args) and either returns
the list of DUT handles (opaque, modelled as Nat identities) or raises
AllocationError. -/
structure Allocator where
  allocate : ResourceConfig → Args → Except AllocationError (List Nat)

/-- The plugin manager collaborating object: get_allocator(name) returns an
allocator class or None.  The class is called as allocator(self.args, None)
in __get_allocator; the second positional argument is the constant None, so a
constructor is modelled as a function of the args alone. -/
structure PluginManager where
  get_allocator : String → Option (Args → Allocator)

/-- The mutable ResourceProvider attributes that the claims observe:
self.args, self.allocator, plus a counter of how many times the provider has
invoked the cleanup method of the bound allocator (the observable effect of
the allocator.cleanup() call sites in the source). -/
structure RPState where
  args : Args
  allocator : Option Allocator
  allocatorCleanups : Nat

namespace ResourceProvider

/-- ResourceProvider.__get_allocator: read the allocator name from the args,
look it up through the plugin manager, raise ResourceInitError when the
lookup returns None, otherwise instantiate the class with the args. -/
def get_allocator (pm : PluginManager) (args : Args) : Except RPError Allocator :=
  match pm.get_allocator args.allocator with
  | none => .error (.resourceInitError ("Unable to load allocator " ++ args.allocator))
  | some ctor => .ok (ctor args)

/-- ResourceProvider.allocate_duts: the required hardware count is computed
into an unused local (the source never branches on it), then an allocator is
bound through __get_allocator if none is bound yet, then the bound allocator
allocate method is invoked; an AllocationError from it is re-raised as
ResourceInitError carrying the original message.  The returned pair carries
the Python result (value or raised error) together with the provider state
left behind, since attribute mutations survive a raised exception. -/
def allocate_duts (pm : PluginManager) (s : RPState) (rc : ResourceConfig) :
    Except RPError (List Nat) × RPState :=
  let _cnt_hrdwr := rc.count_hardware
  let bound : Except RPError (Allocator × RPState) :=
    match s.allocator with
    | some a => .ok (a, s)
    | none =>
      match get_allocator pm s.args with
      | .error e => .error e
      | .ok a => .ok (a, { s with allocator := some a })
  match bound with
  | .error e => (.error e, s)
  | .ok (a, s1) =>
    match a.allocate rc s1.args with
    | .error err => (.error (.resourceInitError err.message), s1)
    | .ok allocations => (.ok allocations, s1)

/-- ResourceProvider.cleanup: when an allocator is bound its cleanup method
is invoked; the self.allocator attribute is left untouched (only __del__
resets it to None). -/
def cleanup (s : RPState) : RPState :=
  match s.allocator with
  | some _ => { s with allocatorCleanups := s.allocatorCleanups + 1 }
  | none => s

/-- ResourceProvider.__del__: invoke the allocator cleanup when one is bound
and reset self.allocator to None. -/
def del (s : RPState) : RPState :=
  match s.allocator with
  | some _ => { s with allocatorCleanups := s.allocatorCleanups + 1, allocator := none }
  | none => s

end ResourceProvider

/-- The Singleton metaclass state from tools.py: Singleton._instances maps a
class to the instance recorded for it, and nextId supplies fresh object
identities (instances are opaque, modelled as Nat identities). -/
structure SingletonState where
  instances : List (String × Nat)
  nextId : Nat
deriving DecidableEq

/-- Singleton.__call__ from tools.py: on the first call for cls a new
instance is constructed (consuming the construction arguments) and recorded;
on every later call the recorded instance is returned and the arguments are
ignored. -/
def Singleton.call (cls : String) (_args : Args) (s : SingletonState) :
    Nat × SingletonState :=
  match s.instances.find? (fun p => p.1 = cls) with
  | some p => (p.2, s)
  | none => (s.nextId, { instances := (cls, s.nextId) :: s.instances, nextId := s.nextId + 1 })

/-- Instantiating ResourceProvider under Python 2, where the class body
attribute assignment of Singleton to the metaclass hook makes every
instantiation go through Singleton.__call__. -/
def constructResourceProviderPy2 (args : Args) (s : SingletonState) :
    Nat × SingletonState :=
  Singleton.call "ResourceProvider" args s

/-- Instantiating ResourceProvider under Python 3: PEP 3115 removed the
Python 2 metaclass hook attribute, so the assignment in the ResourceProvider
class body is an inert class attribute and plain type call semantics build a
fresh instance on every construction. -/
def constructResourceProviderPy3 (_args : Args) (s : SingletonState) :
    Nat × SingletonState :=
  (s.nextId, { s with nextId := s.nextId + 1 })

/- Concrete objects used by witnesses and counterexamples. -/

/-- A resource configuration requiring zero devices. -/
def rcZero : ResourceConfig := { count_hardware := 0, count_duts := 0 }

/-- An allocator that succeeds with one DUT handle. -/
def allocOne : Allocator := { allocate := fun _ _ => .ok [1] }

/-- An allocator whose allocate always raises AllocationError. -/
def allocFail : Allocator :=
  { allocate := fun _ _ => .error { message := "no dut available" } }

/-- A plugin manager whose registry resolves every allocator name. -/
def pmHit : PluginManager := { get_allocator := fun _ => some (fun _ => allocOne) }

/-- A plugin manager whose registry resolves no allocator name. -/
def pmMiss : PluginManager := { get_allocator := fun _ => none }

/-- Concrete arguments selecting the allocator named LocalAllocator. -/
def args0 : Args := { allocator := "LocalAllocator" }

/-- A provider state with no allocator bound yet. -/
def sUnbound : RPState := { args := args0, allocator := none, allocatorCleanups := 0 }

/-- A provider state with the succeeding allocator bound. -/
def sBoundOk : RPState := { args := args0, allocator := some allocOne, allocatorCleanups := 0 }

/-- A provider state with the failing allocator bound. -/
def sBoundFail : RPState := { args := args0, allocator := some allocFail, allocatorCleanups := 0 }

/-- C1 (counterexample): with the required device count zero, an unbound
provider and a registry that resolves the allocator name, allocate_duts does
not return an empty sequence and does construct and bind an allocator, so the
claimed zero-count early return is absent from the code. -/
theorem allocate_duts_zero_count_cex :
    rcZero.count_hardware = 0 ∧
    (ResourceProvider.allocate_duts pmHit sUnbound rcZero).2.allocator ≠ none ∧
    (ResourceProvider.allocate_duts pmHit sUnbound rcZero).1 = .ok [1] :=
  ⟨rfl, Option.some_ne_none _, rfl⟩

/-- C1 (amended): allocate_duts computes the required hardware count but
never branches on it: even when the count is zero, an unbound provider
consults the registry, binds the constructed allocator and returns whatever
the allocator allocate call returns. -/
theorem allocate_duts_zero_count_still_allocates
    (pm : PluginManager) (s : RPState) (rc : ResourceConfig)
    (ctor : Args → Allocator) (hs : List Nat)
    (_hzero : rc.count_hardware = 0)
    (hunbound : s.allocator = none)
    (hreg : pm.get_allocator s.args.allocator = some ctor)
    (halloc : (ctor s.args).allocate rc s.args = .ok hs) :
    ResourceProvider.allocate_duts pm s rc =
      (.ok hs, { s with allocator := some (ctor s.args) }) := by
  unfold ResourceProvider.allocate_duts ResourceProvider.get_allocator
  rw [hunbound, hreg]
  simp only []
  rw [halloc]

/-- C1 (witness): the amended statement evaluated at the concrete
zero-count configuration. -/
theorem allocate_duts_zero_count_still_allocates_witness :
    ResourceProvider.allocate_duts pmHit sUnbound rcZero =
      (.ok [1], { sUnbound with allocator := some allocOne }) :=
  allocate_duts_zero_count_still_allocates pmHit sUnbound rcZero
    (fun _ => allocOne) [1] rfl rfl rfl rfl

/-- C2 (counterexample): cleanup on a state with a bound allocator leaves the
allocator bound (the claimed unbind does not happen), and a second cleanup
invokes the allocator cleanup a second time. -/
theorem cleanup_keeps_allocator_cex :
    (ResourceProvider.cleanup sBoundOk).allocator ≠ none ∧
    (ResourceProvider.cleanup (ResourceProvider.cleanup sBoundOk)).allocatorCleanups = 2 :=
  ⟨Option.some_ne_none _, rfl⟩

/-- C2 (amended): cleanup invokes the cleanup of the bound allocator but
leaves it bound, so an immediate second cleanup invokes the allocator cleanup
again; calling cleanup when no allocator is bound is a no-op producing no
error.  Only __del__ unbinds the allocator. -/
theorem cleanup_invokes_but_keeps_allocator (s : RPState) :
    (s.allocator = none → ResourceProvider.cleanup s = s) ∧
    (∀ a, s.allocator = some a →
      ResourceProvider.cleanup s =
        { s with allocatorCleanups := s.allocatorCleanups + 1 } ∧
      (ResourceProvider.cleanup s).allocator = some a ∧
      (ResourceProvider.cleanup (ResourceProvider.cleanup s)).allocatorCleanups =
        s.allocatorCleanups + 2) := by
  unfold ResourceProvider.cleanup
  constructor
  · intro h
    rw [h]
  · intro a h
    rw [h]
    exact ⟨rfl, rfl, rfl⟩

/-- C2 (witness): the amended statement evaluated both at the unbound state
and at a state with a bound allocator. -/
theorem cleanup_invokes_but_keeps_allocator_witness :
    ResourceProvider.cleanup sUnbound = sUnbound ∧
    ResourceProvider.cleanup sBoundOk =
      { sBoundOk with allocatorCleanups := sBoundOk.allocatorCleanups + 1 } :=
  ⟨(cleanup_invokes_but_keeps_allocator sUnbound).1 rfl,
   ((cleanup_invokes_but_keeps_allocator sBoundOk).2 allocOne rfl).1⟩

/-- C3: when no allocator is bound and the registry lookup for the configured
allocator name returns None, allocate_duts raises ResourceInitError (with the
unable-to-load message built from the name) and the provider state is left
unchanged, in particular still unbound; no fallback allocator is used. -/
theorem allocate_duts_unknown_allocator_fails
    (pm : PluginManager) (s : RPState) (rc : ResourceConfig)
    (hunbound : s.allocator = none)
    (hmiss : pm.get_allocator s.args.allocator = none) :
    ResourceProvider.allocate_duts pm s rc =
      (.error (.resourceInitError ("Unable to load allocator " ++ s.args.allocator)), s) ∧
    (ResourceProvider.allocate_duts pm s rc).2.allocator = none := by
  unfold ResourceProvider.allocate_duts ResourceProvider.get_allocator
  rw [hunbound, hmiss]
  exact ⟨rfl, hunbound⟩

/-- C3 (witness): the statement evaluated at the empty registry. -/
theorem allocate_duts_unknown_allocator_fails_witness :
    ResourceProvider.allocate_duts pmMiss sUnbound rcZero =
      (.error (.resourceInitError "Unable to load allocator LocalAllocator"), sUnbound) ∧
    (ResourceProvider.allocate_duts pmMiss sUnbound rcZero).2.allocator = none :=
  allocate_duts_unknown_allocator_fails pmMiss sUnbound rcZero rfl rfl

/-- C4: with an allocator bound, an AllocationError raised by its allocate is
caught by allocate_duts and re-raised as ResourceInitError carrying the
original message, so no AllocationError crosses the provider boundary; and
when allocate succeeds, allocate_duts returns exactly the handles the
allocator returned. -/
theorem allocate_duts_wraps_allocation_error
    (pm : PluginManager) (s : RPState) (rc : ResourceConfig) (a : Allocator)
    (hbound : s.allocator = some a) :
    (∀ err, a.allocate rc s.args = .error err →
      ResourceProvider.allocate_duts pm s rc =
        (.error (.resourceInitError err.message), s)) ∧
    (∀ hs, a.allocate rc s.args = .ok hs →
      ResourceProvider.allocate_duts pm s rc = (.ok hs, s)) := by
  unfold ResourceProvider.allocate_duts
  rw [hbound]
  constructor
  · intro err herr
    simp [herr]
  · intro hs hok
    simp [hok]

/-- C4 (witness): the statement evaluated at a bound failing allocator and at
a bound succeeding allocator. -/
theorem allocate_duts_wraps_allocation_error_witness :
    ResourceProvider.allocate_duts pmMiss sBoundFail rcZero =
      (.error (.resourceInitError "no dut available"), sBoundFail) ∧
    ResourceProvider.allocate_duts pmMiss sBoundOk rcZero = (.ok [1], sBoundOk) :=
  ⟨(allocate_duts_wraps_allocation_error pmMiss sBoundFail rcZero allocFail rfl).1
      { message := "no dut available" } rfl,
   (allocate_duts_wraps_allocation_error pmMiss sBoundOk rcZero allocOne rfl).2 [1] rfl⟩

/-- C10: under Python 3 the Python 2 metaclass hook in the ResourceProvider
class body is inert, so two constructions in one process yield two distinct
instances, although the Singleton mechanism of tools.py (effective under
Python 2, and what the class docstring promises) would return the very same
instance for both constructions, ignoring the second set of arguments. -/
theorem resourceProvider_not_singleton_under_py3 :
    (constructResourceProviderPy3 args0
        (constructResourceProviderPy3 args0 ⟨[], 0⟩).2).1 ≠
      (constructResourceProviderPy3 args0 ⟨[], 0⟩).1 ∧
    (constructResourceProviderPy2 { allocator := "other" }
        (constructResourceProviderPy2 args0 ⟨[], 0⟩).2).1 =
      (constructResourceProviderPy2 args0 ⟨[], 0⟩).1 := by
  decide

/- Resilient line transport: EnhancedSerial.readline / readlines from
mbed_test/enhancedserial.py.  Buffers are lists of characters; the raw
channel is a list of chunks, the successive decoded results of the
self.read(512) calls.  A chunk is the empty list when the read timed out,
raised SerialTimeoutException, SerialException or ValueError, or delivered
undecodable data, since the source maps all of those to an empty block; an
exhausted chunk list means every further read times out and yields nothing.
Times are naturals in a fixed unit (say hundredths of a second): t0 is
self.timeout, the per-call timeout the constructor coerces to at least 0.01,
and T is the overall timeout argument. -/

/-- The index of the first newline in the buffer: self.buf.find of the
newline character, which returns -1 when absent, embedded as Option Nat. -/
def findNL : List Char → Option Nat
  | [] => none
  | c :: cs => if c = '\n' then some 0 else (findNL cs).map (fun i => i + 1)

/-- One pass of the EnhancedSerial.readline retry loop, with explicit fuel
bounding the number of loop iterations (none means the fuel ran out before
the loop finished).  Each iteration reads one chunk, appends it to the
buffer, returns the head line if a newline is now present, and otherwise
increments tries and breaks out of the loop, returning the whole buffer and
clearing it, once tries times the per-call timeout exceeds the overall
timeout.  The result carries the returned line, the buffer left behind and
the chunks not yet read. -/
def readlineFuel (t0 T : Nat) :
    Nat → Nat → List Char → List (List Char) →
    Option (List Char × List Char × List (List Char))
  | 0, _, _, _ => none
  | fuel + 1, tries, buf, incoming =>
    let block := incoming.headD []
    let rest := incoming.tail
    let buf1 := buf ++ block
    match findNL buf1 with
    | some pos => some (buf1.take (pos + 1), buf1.drop (pos + 1), rest)
    | none =>
      if (tries + 1) * t0 > T then some (buf1, [], rest)
      else readlineFuel t0 T fuel (tries + 1) buf1 rest

/-- EnhancedSerial.readline(timeout=T) on a port whose per-call timeout is t0
and whose buffer holds buf: the loop starts with tries = 0, and T + 1
iterations of fuel are enough for every positive t0 since the loop stops once
tries * t0 exceeds T. -/
def readline (t0 T : Nat) (buf : List Char) (incoming : List (List Char)) :
    Option (List Char × List Char × List (List Char)) :=
  readlineFuel t0 T (T + 1) 0 buf incoming

/-- The EnhancedSerial.readlines loop with explicit fuel: call readline,
append the returned line when it is non-empty, stop when the line is empty or
its last character is not the newline.  The result carries the collected
lines, the buffer left behind and the chunks not yet read. -/
def readlinesFuel (t0 T : Nat) :
    Nat → List Char → List (List Char) →
    Option (List (List Char) × List Char × List (List Char))
  | 0, _, _ => none
  | fuel + 1, buf, incoming =>
    match readline t0 T buf incoming with
    | none => none
    | some (line, buf1, rest) =>
      if line = [] then some ([], buf1, rest)
      else if line.getLast? ≠ some '\n' then some ([line], buf1, rest)
      else
        match readlinesFuel t0 T fuel buf1 rest with
        | none => none
        | some (lines, buf2, rest2) => some (line :: lines, buf2, rest2)

/-- EnhancedSerial.readlines(timeout=T): every completed iteration consumes
at least one character of buffered or incoming data, so that much fuel plus
one is enough whenever the calls terminate at all. -/
def readlines (t0 T : Nat) (buf : List Char) (incoming : List (List Char)) :
    Option (List (List Char) × List Char × List (List Char)) :=
  readlinesFuel t0 T (buf.length + (incoming.map List.length).sum + 1) buf incoming

/-- Shape of a line batch returned by readlines: every collected line is
non-empty and every line before the last ends with the newline terminator. -/
def linesShape : List (List Char) → Prop
  | [] => True
  | [l] => l ≠ []
  | l :: rest => l ≠ [] ∧ (∃ l0, l = l0 ++ ['\n']) ∧ linesShape rest

/-- Helper: findNL finds no newline exactly when the buffer has none. -/
theorem findNL_eq_none_iff {l : List Char} : findNL l = none ↔ '\n' ∉ l := by
  induction l with
  | nil => simp [findNL]
  | cons c cs ih =>
    by_cases hc : c = '\n'
    · subst hc
      simp [findNL]
    · rw [findNL, if_neg hc]
      simp [Option.map_eq_none', ih, Ne.symm hc]

/-- Helper: when findNL finds the first newline at index pos, the head slice
up to and including it is a newline-free prefix followed by the newline. -/
theorem findNL_take {l : List Char} {p : Nat} (h : findNL l = some p) :
    ∃ l0, l.take (p + 1) = l0 ++ ['\n'] ∧ '\n' ∉ l0 := by
  induction l generalizing p with
  | nil => simp [findNL] at h
  | cons c cs ih =>
    by_cases hc : c = '\n'
    · subst hc
      rw [findNL, if_pos rfl] at h
      obtain rfl : (0 : Nat) = p := Option.some.inj h
      exact ⟨[], by simp, by simp⟩
    · rw [findNL, if_neg hc] at h
      obtain ⟨q, hq, rfl⟩ := Option.map_eq_some'.mp h
      obtain ⟨l0, hl0, hnl⟩ := ih hq
      refine ⟨c :: l0, ?_, ?_⟩
      · rw [List.take_succ_cons, hl0]
        rfl
      · simp [hnl, Ne.symm hc]

/-- Core invariant of the readline loop: on any successful return, the
consumed chunks form a prefix of the incoming chunk list, the returned line
followed by the buffer left behind is exactly the old buffer followed by the
consumed chunks (FIFO order, nothing lost, nothing duplicated), and either
the loop timed out, clearing the buffer and returning a line with no
terminator in it, or the line is the head slice of the data up to and
including the first terminator. -/
theorem readlineFuel_spec (t0 T : Nat) :
    ∀ (fuel tries : Nat) (buf : List Char) (incoming : List (List Char))
      (line buf2 : List Char) (rest : List (List Char)),
      readlineFuel t0 T fuel tries buf incoming = some (line, buf2, rest) →
      ∃ consumed, incoming = consumed ++ rest ∧
        line ++ buf2 = buf ++ consumed.flatten ∧
        ((buf2 = [] ∧ '\n' ∉ line) ∨ (∃ l0, line = l0 ++ ['\n'] ∧ '\n' ∉ l0)) := by
  intro fuel
  induction fuel with
  | zero =>
    intro tries buf incoming line buf2 rest h
    simp [readlineFuel] at h
  | succ fuel ih =>
    intro tries buf incoming line buf2 rest h
    simp only [readlineFuel] at h
    split at h
    · next pos hf =>
      simp only [Option.some.injEq, Prod.mk.injEq] at h
      obtain ⟨rfl, rfl, rfl⟩ := h
      obtain ⟨l0, hl0, hnl⟩ := findNL_take hf
      cases incoming with
      | nil =>
        exact ⟨[], by simp, by simp [List.take_append_drop], Or.inr ⟨l0, hl0, hnl⟩⟩
      | cons c cs =>
        exact ⟨[c], by simp, by simp [List.take_append_drop], Or.inr ⟨l0, hl0, hnl⟩⟩
    · next hf =>
      split at h
      · next htime =>
        simp only [Option.some.injEq, Prod.mk.injEq] at h
        obtain ⟨rfl, rfl, rfl⟩ := h
        have hnl : '\n' ∉ buf ++ incoming.headD [] := findNL_eq_none_iff.mp hf
        cases incoming with
        | nil =>
          exact ⟨[], by simp, by simp, Or.inl ⟨rfl, hnl⟩⟩
        | cons c cs =>
          exact ⟨[c], by simp, by simp, Or.inl ⟨rfl, hnl⟩⟩
      · next htime =>
        obtain ⟨consumed, hc1, hc2, hc3⟩ :=
          ih (tries + 1) (buf ++ incoming.headD []) incoming.tail line buf2 rest h
        cases incoming with
        | nil =>
          obtain ⟨rfl, rfl⟩ := List.append_eq_nil.mp hc1.symm
          exact ⟨[], by simp, by simpa using hc2, hc3⟩
        | cons c cs =>
          refine ⟨c :: consumed, ?_, ?_, hc3⟩
          · simpa using hc1
          · rw [hc2]
            simp

/-- C6: whenever readline returns, the consumed chunks are a prefix of the
incoming chunk list and the returned line followed by the remaining buffer is
exactly the previous buffer followed by the consumed chunks, so bytes are
consumed from the head in FIFO order and no byte is delivered in more than
one returned line; and when a terminator was found, the line is exactly the
head slice up to and including the first terminator, with the remaining bytes
staying buffered for the next call. -/
theorem readline_first_terminator_fifo (t0 T : Nat)
    (buf : List Char) (incoming : List (List Char))
    (line buf2 : List Char) (rest : List (List Char))
    (h : readline t0 T buf incoming = some (line, buf2, rest)) :
    ∃ consumed, incoming = consumed ++ rest ∧
      line ++ buf2 = buf ++ consumed.flatten ∧
      ((buf2 = [] ∧ '\n' ∉ line) ∨ (∃ l0, line = l0 ++ ['\n'] ∧ '\n' ∉ l0)) :=
  readlineFuel_spec t0 T (T + 1) 0 buf incoming line buf2 rest h

/-- C6 (witness): the statement evaluated on a buffer holding two characters
and a chunk that completes the line and starts the next one. -/
theorem readline_first_terminator_fifo_witness :
    ∃ consumed, [['c', '\n', 'd']] = consumed ++ ([] : List (List Char)) ∧
      ['a', 'b', 'c', '\n'] ++ ['d'] = ['a', 'b'] ++ consumed.flatten ∧
      ((['d'] = ([] : List Char) ∧ '\n' ∉ ['a', 'b', 'c', '\n']) ∨
       (∃ l0, ['a', 'b', 'c', '\n'] = l0 ++ ['\n'] ∧ '\n' ∉ l0)) :=
  readline_first_terminator_fifo 1 5 ['a', 'b'] [['c', '\n', 'd']]
    ['a', 'b', 'c', '\n'] ['d'] [] (by decide)

/-- Timeout behaviour of the readline loop: when no newline is buffered and
none ever arrives, the loop performs reads until the number of tries times
the per-call timeout first exceeds the overall timeout, then returns the
whole accumulated buffer and leaves an empty buffer behind. -/
theorem readlineFuel_timeout (t0 T : Nat) :
    ∀ (fuel tries : Nat) (buf : List Char) (incoming : List (List Char)),
      '\n' ∉ buf →
      (∀ c ∈ incoming, '\n' ∉ c) →
      tries * t0 ≤ T →
      T < (tries + fuel) * t0 →
      ∃ n, 1 ≤ n ∧ T < (tries + n) * t0 ∧ (tries + n - 1) * t0 ≤ T ∧
        readlineFuel t0 T fuel tries buf incoming =
          some (buf ++ (incoming.take n).flatten, [], incoming.drop n) := by
  intro fuel
  induction fuel with
  | zero =>
    intro tries buf incoming hb hc hle hlt
    rw [Nat.add_zero] at hlt
    exact absurd hlt (Nat.not_lt.mpr hle)
  | succ fuel ih =>
    intro tries buf incoming hb hc hle hlt
    have hbuf1 : '\n' ∉ buf ++ incoming.headD [] := by
      cases incoming with
      | nil => simpa using hb
      | cons c cs =>
        simp only [List.headD_cons, List.mem_append]
        exact fun hor => hor.elim hb (hc c (List.mem_cons_self c cs))
    have hf : findNL (buf ++ incoming.headD []) = none := findNL_eq_none_iff.mpr hbuf1
    by_cases ht : (tries + 1) * t0 > T
    · refine ⟨1, Nat.le_refl 1, ht, by simpa using hle, ?_⟩
      simp only [readlineFuel, hf, if_pos ht]
      cases incoming with
      | nil => simp
      | cons c cs => simp
    · have hle1 : (tries + 1) * t0 ≤ T := Nat.not_lt.mp ht
      have hlt1 : T < ((tries + 1) + fuel) * t0 := by
        have harith : (tries + 1) + fuel = tries + (fuel + 1) := by omega
        rw [harith]
        exact hlt
      have hc1 : ∀ c ∈ incoming.tail, '\n' ∉ c := by
        cases incoming with
        | nil => simp
        | cons c cs => exact fun x hx => hc x (List.mem_cons_of_mem c hx)
      obtain ⟨n, h1, h2, h3, h4⟩ :=
        ih (tries + 1) (buf ++ incoming.headD []) incoming.tail hbuf1 hc1 hle1 hlt1
      refine ⟨n + 1, by omega, ?_, ?_, ?_⟩
      · have harith : tries + (n + 1) = (tries + 1) + n := by omega
        rw [harith]
        exact h2
      · have harith : tries + (n + 1) - 1 = (tries + 1) + n - 1 := by omega
        rw [harith]
        exact h3
      · simp only [readlineFuel, hf, if_neg ht]
        rw [h4]
        cases incoming with
        | nil => simp
        | cons c cs => simp

/-- C5: when the buffer holds no terminator and no incoming chunk ever
delivers one, readline stops after the first number of attempts n whose
cumulative attempted time n * t0 exceeds the overall timeout T, returns the
entire accumulated buffer contents as the line without raising, and leaves an
empty buffer behind for the next call. -/
theorem readline_timeout_returns_buffer (t0 T : Nat)
    (buf : List Char) (incoming : List (List Char))
    (ht0 : 1 ≤ t0) (hb : '\n' ∉ buf) (hc : ∀ c ∈ incoming, '\n' ∉ c) :
    ∃ n, 1 ≤ n ∧ T < n * t0 ∧ (n - 1) * t0 ≤ T ∧
      readline t0 T buf incoming =
        some (buf ++ (incoming.take n).flatten, [], incoming.drop n) := by
  have hlt : T < (0 + (T + 1)) * t0 := by
    have h1 : T + 1 ≤ (T + 1) * t0 := Nat.le_mul_of_pos_right (T + 1) ht0
    rw [Nat.zero_add]
    omega
  obtain ⟨n, h1, h2, h3, h4⟩ :=
    readlineFuel_timeout t0 T (T + 1) 0 buf incoming hb hc (by simp) hlt
  rw [Nat.zero_add] at h2 h3
  exact ⟨n, h1, h2, h3, h4⟩

/-- C5 (witness): per-call timeout 1, overall timeout 2, a non-terminated
buffered character and terminator-free chunks: three attempts are made, the
accumulated data comes back as the line and the buffer is cleared. -/
theorem readline_timeout_returns_buffer_witness :
    ∃ n, 1 ≤ n ∧ 2 < n * 1 ∧ (n - 1) * 1 ≤ 2 ∧
      readline 1 2 ['a'] [['b'], ['c'], ['d'], ['e']] =
        some (['a'] ++ (([['b'], ['c'], ['d'], ['e']].take n)).flatten, [],
          [['b'], ['c'], ['d'], ['e']].drop n) :=
  readline_timeout_returns_buffer 1 2 ['a'] [['b'], ['c'], ['d'], ['e']]
    (by decide) (by decide) (by decide)

/-- Core invariant of the readlines loop: every returned batch has the
linesShape shape (all collected lines non-empty, every line before the last
terminated) and the collected lines followed by the buffer left behind are
exactly the old buffer followed by the consumed prefix of the chunk list. -/
theorem readlinesFuel_spec (t0 T : Nat) :
    ∀ (fuel : Nat) (buf : List Char) (incoming : List (List Char))
      (lines : List (List Char)) (buf2 : List Char) (rest : List (List Char)),
      readlinesFuel t0 T fuel buf incoming = some (lines, buf2, rest) →
      linesShape lines ∧
      ∃ consumed, incoming = consumed ++ rest ∧
        lines.flatten ++ buf2 = buf ++ consumed.flatten := by
  intro fuel
  induction fuel with
  | zero =>
    intro buf incoming lines buf2 rest h
    simp [readlinesFuel] at h
  | succ fuel ih =>
    intro buf incoming lines buf2 rest h
    simp only [readlinesFuel] at h
    cases hr : readline t0 T buf incoming with
    | none =>
      rw [hr] at h
      exact absurd h (by simp)
    | some res =>
      obtain ⟨line, bufm, restm⟩ := res
      rw [hr] at h
      dsimp only at h
      obtain ⟨consumed1, hc1, hc2, -⟩ :=
        readlineFuel_spec t0 T (T + 1) 0 buf incoming line bufm restm hr
      by_cases hempty : line = []
      · rw [if_pos hempty] at h
        simp only [Option.some.injEq, Prod.mk.injEq] at h
        obtain ⟨rfl, rfl, rfl⟩ := h
        subst hempty
        exact ⟨trivial, consumed1, hc1, by simpa using hc2⟩
      · rw [if_neg hempty] at h
        by_cases hlast : line.getLast? ≠ some '\n'
        · rw [if_pos hlast] at h
          simp only [Option.some.injEq, Prod.mk.injEq] at h
          obtain ⟨rfl, rfl, rfl⟩ := h
          exact ⟨hempty, consumed1, hc1, by simpa using hc2⟩
        · rw [if_neg hlast] at h
          have hlast2 : line.getLast? = some '\n' := not_not.mp hlast
          cases hr2 : readlinesFuel t0 T fuel bufm restm with
          | none =>
            rw [hr2] at h
            exact absurd h (by simp)
          | some res2 =>
            obtain ⟨lines2, buf3, rest3⟩ := res2
            rw [hr2] at h
            dsimp only at h
            simp only [Option.some.injEq, Prod.mk.injEq] at h
            obtain ⟨rfl, rfl, rfl⟩ := h
            obtain ⟨hshape2, consumed2, hd1, hd2⟩ := ih bufm restm lines2 buf3 rest3 hr2
            have hterm : ∃ l0, line = l0 ++ ['\n'] := by
              refine ⟨line.dropLast, ?_⟩
              have hgl : line.getLast hempty = '\n' := by
                have := List.getLast?_eq_getLast line hempty
                rw [hlast2] at this
                exact (Option.some.inj this).symm
              rw [← hgl]
              exact (List.dropLast_append_getLast hempty).symm
            constructor
            · cases lines2 with
              | nil => exact hempty
              | cons x xs => exact ⟨hempty, hterm, hshape2⟩
            · refine ⟨consumed1 ++ consumed2, ?_, ?_⟩
              · rw [hc1, hd1, List.append_assoc]
              · calc (line :: lines2).flatten ++ buf3
                    = line ++ (lines2.flatten ++ buf3) := by
                      simp [List.append_assoc]
                  _ = line ++ (bufm ++ consumed2.flatten) := by rw [hd2]
                  _ = (line ++ bufm) ++ consumed2.flatten := by
                      rw [List.append_assoc]
                  _ = (buf ++ consumed1.flatten) ++ consumed2.flatten := by rw [hc2]
                  _ = buf ++ (consumed1 ++ consumed2).flatten := by
                      simp [List.append_assoc]

/-- C7: whenever readlines returns a batch, every collected line is non-empty
and every line before the last ends with the terminator (so the batch stops
at the first empty or timeout-truncated line, which is itself included when
non-empty), the collected lines concatenated with the leftover buffer are
exactly the data consumed from the head of the channel, and the chunk list
suffix that was never read is returned untouched, even when it would have
delivered further complete lines. -/
theorem readlines_stops_at_truncated_line (t0 T : Nat)
    (buf : List Char) (incoming : List (List Char))
    (lines : List (List Char)) (buf2 : List Char) (rest : List (List Char))
    (h : readlines t0 T buf incoming = some (lines, buf2, rest)) :
    linesShape lines ∧
    ∃ consumed, incoming = consumed ++ rest ∧
      lines.flatten ++ buf2 = buf ++ consumed.flatten :=
  readlinesFuel_spec t0 T (buf.length + (incoming.map List.length).sum + 1)
    buf incoming lines buf2 rest h

/-- C7 (witness): a complete line, then a truncated partial line, end the
batch although the unread chunk suffix still holds a complete line. -/
theorem readlines_stops_at_truncated_line_witness :
    linesShape [['h', 'i', '\n'], ['p', 'a']] ∧
    ∃ consumed,
      [['h', 'i', '\n'], ['p', 'a'], [], ['o', 'k', '\n']] =
        consumed ++ [['o', 'k', '\n']] ∧
      [['h', 'i', '\n'], ['p', 'a']].flatten ++ ([] : List Char) =
        ([] : List Char) ++ consumed.flatten :=
  readlines_stops_at_truncated_line 1 1 []
    [['h', 'i', '\n'], ['p', 'a'], [], ['o', 'k', '\n']]
    [['h', 'i', '\n'], ['p', 'a']] [] [['o', 'k', '\n']] (by decide)

/- Recursive requirement lookup: recursive_dictionary_get from tools.py. -/

/-- Python values as far as recursive_dictionary_get can observe them: None,
numbers, strings and dictionaries.  A dictionary is an association list (a
Python dict never holds duplicate keys; lookup takes the first match). -/
inductive PyVal where
  | vnone : PyVal
  | vint : Int → PyVal
  | vstr : List Char → PyVal
  | vdict : List (List Char × PyVal) → PyVal

/-- Python truthiness of the modelled values: None is falsy, numbers are
truthy unless zero, strings and dictionaries are truthy unless empty. -/
def pyTruthy : PyVal → Bool
  | .vnone => false
  | .vint n => n != 0
  | .vstr s => !s.isEmpty
  | .vdict es => !es.isEmpty

/-- hasattr(value, get): among the modelled values only dictionaries expose a
get method. -/
def pyHasGet : PyVal → Bool
  | .vdict _ => true
  | _ => false

/-- dictionary.get(key): the value stored under the key, or None when the key
is absent. -/
def pyGet : PyVal → List Char → PyVal
  | .vdict es, k =>
    match es.find? (fun p => p.1 == k) with
    | some p => p.2
    | none => .vnone
  | _, _ => .vnone

/-- Helper: dropWhile never lengthens a list. -/
theorem length_dropWhile_le_self (p : Char → Bool) (l : List Char) :
    (l.dropWhile p).length ≤ l.length := by
  induction l with
  | nil => simp
  | cons c cs ih =>
    rw [List.dropWhile_cons]
    by_cases hp : p c = true
    · rw [if_pos hp]
      exact Nat.le_trans ih (by simp)
    · rw [if_neg hp]

/-- Helper: dropping the non-dot prefix of a list that contains a dot leaves
a non-empty list. -/
theorem dropWhile_ne_nil_of_mem_dot {l : List Char} (h : '.' ∈ l) :
    l.dropWhile (fun c => c != '.') ≠ [] := by
  induction l with
  | nil => simp at h
  | cons c cs ih =>
    by_cases hc : c = '.'
    · subst hc
      simp [List.dropWhile]
    · rw [List.dropWhile_cons]
      have hb : (c != '.') = true := bne_iff_ne.mpr hc
      rw [if_pos hb]
      have hmem : '.' ∈ cs := by
        rcases List.mem_cons.mp h with h1 | h1
        · exact absurd h1.symm hc
        · exact h1
      exact ih hmem

/-- recursive_dictionary_get(keys, dictionary) from tools.py, with the keys
string as a character list.  A keys string that contains a dot and is longer
than one character is split at the first dot; the head key is looked up and
the search continues in the result only when that value is truthy and has a
get method, otherwise None is returned.  Otherwise the whole keys string is
looked up directly, guarded by the dictionary being truthy and having a get
method.  In the dotted branch the source calls dictionary.get without any
guard, so a dictionary argument without a get method raises AttributeError
there, embedded as the error case. -/
def recursive_dictionary_get (keys : List Char) (dictionary : PyVal) :
    Except Unit PyVal :=
  if h : '.' ∈ keys ∧ 1 < keys.length then
    let key0 := keys.takeWhile (fun c => c != '.')
    let key1 := (keys.dropWhile (fun c => c != '.')).tail
    if pyHasGet dictionary then
      let new_dict := pyGet dictionary key0
      if !pyTruthy new_dict || !pyHasGet new_dict then .ok .vnone
      else recursive_dictionary_get key1 new_dict
    else .error ()
  else
    .ok (if pyTruthy dictionary && pyHasGet dictionary then pyGet dictionary keys
         else .vnone)
termination_by keys.length
decreasing_by
  have hne := dropWhile_ne_nil_of_mem_dot h.1
  have hle : (keys.dropWhile (fun c => c != '.')).length ≤ keys.length :=
    length_dropWhile_le_self (fun c => c != '.') keys
  cases hdw : keys.dropWhile (fun c => c != '.') with
  | nil => exact absurd hdw hne
  | cons x xs =>
    rw [hdw] at hle
    simp only [hdw, List.tail_cons]
    simp only [List.length_cons] at hle
    omega

/-- Dot-separated join of path segments: the keys string on which the source
performs its split at the first dot. -/
def joinDots : List (List Char) → List Char
  | [] => []
  | [s] => s
  | s :: rest => s ++ '.' :: joinDots rest

/-- Specification-side path lookup: follow the segments through nested
dictionaries; a missing key or a non-dictionary intermediate node gives
none. -/
def nestedLookup : List (List Char) → PyVal → Option PyVal
  | [], v => some v
  | k :: ks, .vdict es =>
    match es.find? (fun p => p.1 == k) with
    | some p => nestedLookup ks p.2
    | none => none
  | _ :: _, _ => none

/-- Helper: joinDots on at least two segments starts with the first segment,
a dot, and the join of the remaining segments. -/
theorem joinDots_cons_cons (s s2 : List Char) (rest : List (List Char)) :
    joinDots (s :: s2 :: rest) = s ++ '.' :: joinDots (s2 :: rest) := rfl

/-- Helper: taking the non-dot prefix of a dot-free segment followed by a dot
recovers the segment. -/
theorem takeWhile_append_dot (s t : List Char) (hs : '.' ∉ s) :
    (s ++ '.' :: t).takeWhile (fun c => c != '.') = s := by
  induction s with
  | nil => simp [List.takeWhile_cons]
  | cons c cs ih =>
    have hc : c ≠ '.' := fun hh => hs (by rw [hh]; exact List.mem_cons_self '.' cs)
    rw [List.cons_append, List.takeWhile_cons, if_pos (bne_iff_ne.mpr hc)]
    rw [ih (fun hm => hs (List.mem_cons_of_mem c hm))]

/-- Helper: dropping the non-dot prefix of a dot-free segment followed by a
dot leaves the dot and the remainder. -/
theorem dropWhile_append_dot (s t : List Char) (hs : '.' ∉ s) :
    (s ++ '.' :: t).dropWhile (fun c => c != '.') = '.' :: t := by
  induction s with
  | nil => simp [List.dropWhile_cons]
  | cons c cs ih =>
    have hc : c ≠ '.' := fun hh => hs (by rw [hh]; exact List.mem_cons_self '.' cs)
    rw [List.cons_append, List.dropWhile_cons, if_pos (bne_iff_ne.mpr hc)]
    exact ih (fun hm => hs (List.mem_cons_of_mem c hm))

/-- C9: for every nested dictionary and every non-empty dot-separated path of
non-empty dot-free segments, recursive_dictionary_get returns (without
raising) exactly the value reached by following the segments through the
nested dictionaries, and None whenever a segment is missing or an
intermediate node is not a truthy dictionary; in particular a value placed at
a nested path in the raw configuration is returned unchanged. -/
theorem recursive_dictionary_get_correct (segs : List (List Char)) :
    ∀ es : List (List Char × PyVal),
      segs ≠ [] →
      (∀ x ∈ segs, x ≠ [] ∧ '.' ∉ x) →
      recursive_dictionary_get (joinDots segs) (.vdict es) =
        .ok ((nestedLookup segs (.vdict es)).getD .vnone) := by
  induction segs with
  | nil =>
    intro es hne _
    exact absurd rfl hne
  | cons s rest ih =>
    intro es _ hseg
    obtain ⟨hs_ne, hs_dot⟩ := hseg s (List.mem_cons_self s rest)
    cases rest with
    | nil =>
      have hj : joinDots [s] = s := rfl
      rw [hj]
      rw [recursive_dictionary_get]
      rw [dif_neg (fun hcon => hs_dot hcon.1)]
      cases es with
      | nil => simp [pyTruthy, pyHasGet, nestedLookup]
      | cons e es2 =>
        cases hf : (e :: es2).find? (fun p => p.1 == s) with
        | none => simp [pyTruthy, pyHasGet, pyGet, nestedLookup, hf]
        | some p => simp [pyTruthy, pyHasGet, pyGet, nestedLookup, hf]
    | cons s2 rest2 =>
      rw [recursive_dictionary_get]
      have hmem : '.' ∈ joinDots (s :: s2 :: rest2) := by
        rw [joinDots_cons_cons]
        exact List.mem_append_right s (List.mem_cons_self '.' _)
      have hlen : 1 < (joinDots (s :: s2 :: rest2)).length := by
        rw [joinDots_cons_cons]
        cases s with
        | nil => exact absurd rfl hs_ne
        | cons c cs => simp
      rw [dif_pos ⟨hmem, hlen⟩]
      simp only [joinDots_cons_cons, takeWhile_append_dot s _ hs_dot,
        dropWhile_append_dot s _ hs_dot, List.tail_cons]
      cases hf : es.find? (fun p => p.1 == s) with
      | none =>
        simp [pyHasGet, pyGet, pyTruthy, nestedLookup, hf]
      | some p =>
        cases hp : p.2 with
        | vdict es2 =>
          cases es2 with
          | nil =>
            simp [pyHasGet, pyGet, pyTruthy, nestedLookup, hf, hp]
          | cons e2 es3 =>
            have hrec := ih (e2 :: es3) (by simp)
              (fun x hx => hseg x (List.mem_cons_of_mem s hx))
            simpa [pyHasGet, pyGet, pyTruthy, nestedLookup, hf, hp] using hrec
        | vnone => simp [pyHasGet, pyGet, pyTruthy, nestedLookup, hf, hp]
        | vint n =>
          by_cases hn : n = 0
          · subst hn
            simp [pyHasGet, pyGet, pyTruthy, nestedLookup, hf, hp]
          · simp [pyHasGet, pyGet, pyTruthy, nestedLookup, hf, hp, hn]
        | vstr str =>
          cases str with
          | nil => simp [pyHasGet, pyGet, pyTruthy, nestedLookup, hf, hp]
          | cons c cs => simp [pyHasGet, pyGet, pyTruthy, nestedLookup, hf, hp]

/-- C9 (witness): the dot path duts.0.type fetches exactly the value stored
at that nested path, evaluated on a concrete configuration. -/
theorem recursive_dictionary_get_correct_witness :
    recursive_dictionary_get (joinDots ["duts".toList, "0".toList, "type".toList])
        (.vdict [("duts".toList,
          .vdict [("0".toList, .vdict [("type".toList, .vstr "hardware".toList)])])]) =
      .ok (.vstr "hardware".toList) := by
  have h := recursive_dictionary_get_correct
    ["duts".toList, "0".toList, "type".toList]
    [("duts".toList,
      .vdict [("0".toList, .vdict [("type".toList, .vstr "hardware".toList)])])]
    (by decide) (by decide)
  exact h.trans (by rfl)

/- Break signal compatibility shim: EnhancedSerial.safe_sendBreak. -/

/-- The serial port state safe_sendBreak inspects: the pyserial version
parsed once in __init__ by get_pyserial_version, and whether each backend
primitive succeeds when invoked (false means the call raises).  sendBreakOk
and setBreakOk describe the pyserial 2.7 primitives sendBreak and
setBreak(False); send_breakOk and breakConditionOk describe the pyserial 3.x
primitive send_break and the break_condition assignment. -/
structure BreakPort where
  pyserial_version : ℚ
  sendBreakOk : Bool
  setBreakOk : Bool
  send_breakOk : Bool
  breakConditionOk : Bool

/-- EnhancedSerial.__init__ detection, performed once at construction:
is_pyserial_v3 = pyserial_version >= 3.0. -/
def BreakPort.is_pyserial_v3 (p : BreakPort) : Bool :=
  decide (3 ≤ p.pyserial_version)

namespace EnhancedSerial

/-- EnhancedSerial._safe_sendBreak_v2_7: result starts True; sendBreak is
attempted and, when it raises, setBreak(False) is attempted inside a nested
try, setting result to False only when the fallback raises as well; the
boolean is always returned. -/
def safe_sendBreak_v2_7 (p : BreakPort) : Except Unit Bool :=
  if p.sendBreakOk then .ok true
  else if p.setBreakOk then .ok true
  else .ok false

/-- EnhancedSerial._safe_sendBreak_v3_0: result starts True and is never set
to False; send_break is attempted and, when it raises, the break_condition
assignment is executed outside any try block, so an exception raised by the
fallback propagates to the caller; when the function returns at all it
returns True. -/
def safe_sendBreak_v3_0 (p : BreakPort) : Except Unit Bool :=
  if p.send_breakOk then .ok true
  else if p.breakConditionOk then .ok true
  else .error ()

/-- EnhancedSerial.safe_sendBreak: dispatch on the version flag computed at
construction. -/
def safe_sendBreak (p : BreakPort) : Except Unit Bool :=
  if p.is_pyserial_v3 then safe_sendBreak_v3_0 p
  else safe_sendBreak_v2_7 p

end EnhancedSerial

/-- A pyserial 3.x port whose send_break and break_condition fallback both
raise. -/
def portV3Broken : BreakPort :=
  { pyserial_version := 3, sendBreakOk := true, setBreakOk := true,
    send_breakOk := false, breakConditionOk := false }

/-- A pyserial 2.7 port whose sendBreak and setBreak both raise. -/
def portV27Broken : BreakPort :=
  { pyserial_version := 2, sendBreakOk := false, setBreakOk := false,
    send_breakOk := true, breakConditionOk := true }

/-- C8 (counterexample): on a pyserial 3.x port whose primary send_break and
fallback break_condition assignment both raise, safe_sendBreak propagates the
exception instead of reporting failure as a boolean. -/
theorem safe_sendBreak_v3_propagates_cex :
    EnhancedSerial.safe_sendBreak portV3Broken = .error () := rfl

/-- C8 (amended): safe_sendBreak dispatches to the implementation matching
the version detected once at construction; the pyserial 2.7 implementation
attempts the fallback and always returns a boolean, False exactly when both
primitives raise; the pyserial 3.x implementation attempts the fallback when
the primary raises but returns True whenever it returns, and an exception in
the fallback assignment propagates to the caller. -/
theorem safe_sendBreak_dispatch_behavior (p : BreakPort) :
    (p.is_pyserial_v3 = true →
      EnhancedSerial.safe_sendBreak p = EnhancedSerial.safe_sendBreak_v3_0 p ∧
      EnhancedSerial.safe_sendBreak p =
        (if p.send_breakOk || p.breakConditionOk then .ok true else .error ())) ∧
    (p.is_pyserial_v3 = false →
      EnhancedSerial.safe_sendBreak p = EnhancedSerial.safe_sendBreak_v2_7 p ∧
      EnhancedSerial.safe_sendBreak p = .ok (p.sendBreakOk || p.setBreakOk)) := by
  constructor
  · intro hv
    refine ⟨by simp [EnhancedSerial.safe_sendBreak, hv], ?_⟩
    simp only [EnhancedSerial.safe_sendBreak, EnhancedSerial.safe_sendBreak_v3_0, hv]
    cases hsb : p.send_breakOk with
    | true => simp
    | false => cases hbc : p.breakConditionOk with
      | true => simp
      | false => simp
  · intro hv
    refine ⟨by simp [EnhancedSerial.safe_sendBreak, hv], ?_⟩
    simp only [EnhancedSerial.safe_sendBreak, EnhancedSerial.safe_sendBreak_v2_7, hv]
    cases hsb : p.sendBreakOk with
    | true => simp
    | false => cases hst : p.setBreakOk with
      | true => simp
      | false => simp

/-- C8 (witness): the amended statement evaluated at a pyserial 3.x port and
at a pyserial 2.7 port. -/
theorem safe_sendBreak_dispatch_behavior_witness :
    EnhancedSerial.safe_sendBreak portV3Broken =
      EnhancedSerial.safe_sendBreak_v3_0 portV3Broken ∧
    EnhancedSerial.safe_sendBreak portV27Broken =
      .ok (portV27Broken.sendBreakOk || portV27Broken.setBreakOk) :=
  ⟨((safe_sendBreak_dispatch_behavior portV3Broken).1 (by decide)).1,
   ((safe_sendBreak_dispatch_behavior portV27Broken).2 (by decide)).2⟩
